import Mathlib

/-!
Verification development for the ODRMitra Baileys WhatsApp service
(`dbAuthState.js`, `sessions.js`, `index.js`).

The development shallowly embeds:
* the `BufferJSON` codec (`serializeData` / `deserializeData`) together with
  a concrete base64 encoder/decoder modelling `Buffer.toString('base64')`
  and `Buffer.from(s, 'base64')`;
* the per-session auth-sync state (`pendingKeyUpdates`, `keysCache`,
  `scheduleKeySync` debounce with merge-back on failure);
* the session registry (`sessions` map) and its operations
  (`startSession`, `sendMessage`, `disconnectSession`, `logoutSession`,
  `resetSession`) as explicit state transformers emitting observable
  effects (socket termination, socket creation, reconnect timers,
  backend notifications, durable-store mutations).
-/

set_option autoImplicit false

namespace ODRMitra

/-! ## Base64 (models Node's `Buffer#toString('base64')` / `Buffer.from(_, 'base64')`) -/

def b64Alphabet : List Char :=
  "ABCDEFGHIJKLMNOPQRSTUVWXYZabcdefghijklmnopqrstuvwxyz0123456789+/".toList

def b64Char (n : Nat) : Char := b64Alphabet.getD n '='

def b64Index (c : Char) : Nat := b64Alphabet.indexOf c

/-- Standard base64 encoding of a byte list, with `'='` padding. -/
def b64EncodeBytes : List Nat → List Char
  | [] => []
  | [b1] => [b64Char (b1 / 4), b64Char (b1 % 4 * 16), '=', '=']
  | [b1, b2] =>
      [b64Char (b1 / 4), b64Char (b1 % 4 * 16 + b2 / 16), b64Char (b2 % 16 * 4), '=']
  | b1 :: b2 :: b3 :: rest =>
      b64Char (b1 / 4) :: b64Char (b1 % 4 * 16 + b2 / 16) ::
      b64Char (b2 % 16 * 4 + b3 / 64) :: b64Char (b3 % 64) :: b64EncodeBytes rest

/-- Standard base64 decoding of a character list produced by `b64EncodeBytes`. -/
def b64DecodeChars : List Char → List Nat
  | c1 :: c2 :: c3 :: c4 :: rest =>
      let s1 := b64Index c1
      let s2 := b64Index c2
      if c3 = '=' then [s1 * 4 + s2 / 16]
      else
        let s3 := b64Index c3
        if c4 = '=' then [s1 * 4 + s2 / 16, s2 % 16 * 16 + s3 / 4]
        else
          let s4 := b64Index c4
          (s1 * 4 + s2 / 16) :: (s2 % 16 * 16 + s3 / 4) :: (s3 % 4 * 64 + s4) ::
            b64DecodeChars rest
  | _ => []

theorem b64Index_b64Char_fin : ∀ n : Fin 64, b64Index (b64Char n.val) = n.val := by decide

theorem b64Char_ne_pad_fin : ∀ n : Fin 64, b64Char n.val ≠ '=' := by decide

theorem b64Index_b64Char {n : Nat} (h : n < 64) : b64Index (b64Char n) = n :=
  b64Index_b64Char_fin ⟨n, h⟩

theorem b64Char_ne_pad {n : Nat} (h : n < 64) : b64Char n ≠ '=' :=
  b64Char_ne_pad_fin ⟨n, h⟩

theorem b64_decode_encode : ∀ bs : List Nat, (∀ b ∈ bs, b < 256) →
    b64DecodeChars (b64EncodeBytes bs) = bs
  | [], _ => rfl
  | [b1], h => by
      have hb1 : b1 < 256 := h b1 (by simp)
      have h1 : b64Index (b64Char (b1 / 4)) = b1 / 4 := b64Index_b64Char (by omega)
      have h2 : b64Index (b64Char (b1 % 4 * 16)) = b1 % 4 * 16 := b64Index_b64Char (by omega)
      have e1 : b1 / 4 * 4 + b1 % 4 * 16 / 16 = b1 := by omega
      simp [b64EncodeBytes, b64DecodeChars, h1, h2]
      all_goals omega
  | [b1, b2], h => by
      have hb1 : b1 < 256 := h b1 (by simp)
      have hb2 : b2 < 256 := h b2 (by simp)
      have hne : b64Char (b2 % 16 * 4) ≠ '=' := b64Char_ne_pad (by omega)
      have h1 : b64Index (b64Char (b1 / 4)) = b1 / 4 := b64Index_b64Char (by omega)
      have h2 : b64Index (b64Char (b1 % 4 * 16 + b2 / 16)) = b1 % 4 * 16 + b2 / 16 :=
        b64Index_b64Char (by omega)
      have h3 : b64Index (b64Char (b2 % 16 * 4)) = b2 % 16 * 4 := b64Index_b64Char (by omega)
      have e1 : b1 / 4 * 4 + (b1 % 4 * 16 + b2 / 16) / 16 = b1 := by omega
      have e2 : (b1 % 4 * 16 + b2 / 16) % 16 * 16 + b2 % 16 * 4 / 4 = b2 := by omega
      simp [b64EncodeBytes, b64DecodeChars, hne, h1, h2, h3]
      all_goals omega
  | b1 :: b2 :: b3 :: rest, h => by
      have hb1 : b1 < 256 := h b1 (by simp)
      have hb2 : b2 < 256 := h b2 (by simp)
      have hb3 : b3 < 256 := h b3 (by simp)
      have ih : b64DecodeChars (b64EncodeBytes rest) = rest :=
        b64_decode_encode rest (fun b hb => h b (by simp [hb]))
      have hne1 : b64Char (b2 % 16 * 4 + b3 / 64) ≠ '=' := b64Char_ne_pad (by omega)
      have hne2 : b64Char (b3 % 64) ≠ '=' := b64Char_ne_pad (by omega)
      have h1 : b64Index (b64Char (b1 / 4)) = b1 / 4 := b64Index_b64Char (by omega)
      have h2 : b64Index (b64Char (b1 % 4 * 16 + b2 / 16)) = b1 % 4 * 16 + b2 / 16 :=
        b64Index_b64Char (by omega)
      have h3 : b64Index (b64Char (b2 % 16 * 4 + b3 / 64)) = b2 % 16 * 4 + b3 / 64 :=
        b64Index_b64Char (by omega)
      have h4 : b64Index (b64Char (b3 % 64)) = b3 % 64 := b64Index_b64Char (by omega)
      have e1 : b1 / 4 * 4 + (b1 % 4 * 16 + b2 / 16) / 16 = b1 := by omega
      have e2 : (b1 % 4 * 16 + b2 / 16) % 16 * 16 + (b2 % 16 * 4 + b3 / 64) / 4 = b2 := by
        omega
      have e3 : (b2 % 16 * 4 + b3 / 64) % 4 * 64 + b3 % 64 = b3 := by omega
      simp [b64EncodeBytes, b64DecodeChars, hne1, hne2, h1, h2, h3, h4, ih]
      all_goals omega

/-! ## JSON-like data values

`DataVal` models the JavaScript values handled by `serializeData` /
`deserializeData` in `dbAuthState.js`: JSON scalars, arrays, objects, and
`Buffer`/`Uint8Array` leaves (`buf`, a byte list). Objects are ordered field
lists with unique keys, as JS objects are. -/

mutual
inductive DataVal where
  | null
  | bool (b : Bool)
  | num (n : Int)
  | str (s : String)
  | buf (bytes : List Nat)
  | arr (elems : DataArr)
  | obj (fields : DataObj)
deriving DecidableEq
inductive DataArr where
  | nil
  | cons (hd : DataVal) (tl : DataArr)
deriving DecidableEq
inductive DataObj where
  | nil
  | cons (key : String) (val : DataVal) (tl : DataObj)
deriving DecidableEq
end

/-- JS property read `o[k]`: first (unique) occurrence of the key. -/
def DataObj.get (k : String) : DataObj → Option DataVal
  | .nil => none
  | .cons k' v tl => if k' = k then some v else DataObj.get k tl

/-- JS truthiness of a value (`false`, `0`, `""`, `null` are falsy). -/
def jsTruthy : DataVal → Bool
  | .null => false
  | .bool b => b
  | .num n => n != 0
  | .str s => s ≠ ""
  | .buf _ => true
  | .arr _ => true
  | .obj _ => true

/-- The serialized tag produced by `BufferJSON.replacer` for a byte leaf:
`{ type: 'Buffer', data: base64(bytes) }`. -/
def bufferTag (bytes : List Nat) : DataVal :=
  .obj (.cons "type" (.str "Buffer")
    (.cons "data" (.str (String.mk (b64EncodeBytes bytes))) .nil))

mutual
/-- Models `serializeData(data) = JSON.parse(JSON.stringify(data, BufferJSON.replacer))`
from `dbAuthState.js`: every `Buffer`/`Uint8Array` leaf is replaced by
`{ type: 'Buffer', data: base64 }` and everything else is copied structurally.
(The replacer also fires on plain objects that already carry `type: 'Buffer'`;
such pre-tagged objects are excluded from the well-formed domain `wfData`
below rather than modelled.) -/
def serializeData : DataVal → DataVal
  | .null => .null
  | .bool b => .bool b
  | .num n => .num n
  | .str s => .str s
  | .buf bytes => bufferTag bytes
  | .arr xs => .arr (serializeArr xs)
  | .obj fs => .obj (serializeObj fs)
def serializeArr : DataArr → DataArr
  | .nil => .nil
  | .cons x xs => .cons (serializeData x) (serializeArr xs)
def serializeObj : DataObj → DataObj
  | .nil => .nil
  | .cons k v fs => .cons k (serializeData v) (serializeObj fs)
end

/-- The `BufferJSON.reviver` test and reconstruction applied to one object,
after its fields were revived: if `value.type === 'Buffer'` and `value.data`
is truthy the bytes are rebuilt with `Buffer.from(data, 'base64')`; otherwise
the object is kept. (In every reachable input `data` is a string; a truthy
non-string `data` is kept unchanged here and excluded by `wfData`.) -/
def reviveObj (fs : DataObj) : DataVal :=
  match fs.get "type", fs.get "data" with
  | some (.str "Buffer"), some d =>
      if jsTruthy d then
        match d with
        | .str s => .buf (b64DecodeChars s.toList)
        | _ => .obj fs
      else .obj fs
  | _, _ => .obj fs

mutual
/-- Models `deserializeData(data) = JSON.parse(JSON.stringify(data), BufferJSON.reviver)`
from `dbAuthState.js`: the reviver runs bottom-up, turning each object tagged
`{ type: 'Buffer', data: <truthy> }` back into a byte leaf. -/
def deserializeData : DataVal → DataVal
  | .null => .null
  | .bool b => .bool b
  | .num n => .num n
  | .str s => .str s
  | .buf bytes => .buf bytes
  | .arr xs => .arr (deserializeArr xs)
  | .obj fs => reviveObj (deserializeObj fs)
def deserializeArr : DataArr → DataArr
  | .nil => .nil
  | .cons x xs => .cons (deserializeData x) (deserializeArr xs)
def deserializeObj : DataObj → DataObj
  | .nil => .nil
  | .cons k v fs => .cons k (deserializeData v) (deserializeObj fs)
end

mutual
/-- Well-formed credential/key structures: binary leaves are nonempty byte
sequences with bytes in `[0, 256)`, and no plain object is pre-tagged with
`type: 'Buffer'` (which would collide with the codec's wire tag). -/
def wfData : DataVal → Bool
  | .null => true
  | .bool _ => true
  | .num _ => true
  | .str _ => true
  | .buf bytes => !bytes.isEmpty && bytes.all (fun b => b < 256)
  | .arr xs => wfArr xs
  | .obj fs => decide (DataObj.get "type" fs ≠ some (.str "Buffer")) && wfObj fs
def wfArr : DataArr → Bool
  | .nil => true
  | .cons x xs => wfData x && wfArr xs
def wfObj : DataObj → Bool
  | .nil => true
  | .cons _ v fs => wfData v && wfObj fs
end

theorem b64EncodeBytes_ne_nil : ∀ bs : List Nat, bs ≠ [] → b64EncodeBytes bs ≠ []
  | [], h => absurd rfl h
  | [_], _ => by simp [b64EncodeBytes]
  | [_, _], _ => by simp [b64EncodeBytes]
  | _ :: _ :: _ :: _, _ => by simp [b64EncodeBytes]

theorem reviveObj_of_no_tag {fs : DataObj}
    (h : DataObj.get "type" fs ≠ some (.str "Buffer")) : reviveObj fs = .obj fs := by
  unfold reviveObj
  cases ht : DataObj.get "type" fs with
  | none => rfl
  | some v =>
      cases hd : DataObj.get "data" fs with
      | none => cases v <;> simp
      | some d =>
          cases v with
          | str s =>
              by_cases hs : s = "Buffer"
              · exact absurd (by rw [ht, hs]) h
              · simp [hs]
          | null => rfl
          | bool b => rfl
          | num n => rfl
          | buf bytes => rfl
          | arr xs => rfl
          | obj fs2 => rfl

theorem deserialize_bufferTag {bytes : List Nat} (hne : bytes ≠ [])
    (hlt : ∀ b ∈ bytes, b < 256) :
    deserializeData (bufferTag bytes) = .buf bytes := by
  have henc : b64EncodeBytes bytes ≠ [] := b64EncodeBytes_ne_nil bytes hne
  have hstr : String.mk (b64EncodeBytes bytes) ≠ "" := by
    intro hcontra
    exact henc (by simpa using congrArg String.data hcontra)
  simp [bufferTag, deserializeData, deserializeObj, reviveObj, DataObj.get,
    jsTruthy, hstr, String.toList, b64_decode_encode bytes hlt]

mutual
theorem roundtrip_data : ∀ v : DataVal, wfData v = true →
    deserializeData (serializeData v) = v
  | .null, _ => rfl
  | .bool _, _ => rfl
  | .num _, _ => rfl
  | .str _, _ => rfl
  | .buf bytes, h => by
      have hne : bytes ≠ [] := by
        intro hc
        simp [wfData, hc] at h
      have hlt : ∀ b ∈ bytes, b < 256 := by
        simp only [wfData, Bool.and_eq_true, List.all_eq_true] at h
        intro b hb
        simpa using h.2 b hb
      simpa [serializeData] using deserialize_bufferTag hne hlt
  | .arr xs, h => by
      have := roundtrip_arr xs (by simpa [wfData] using h)
      simp [serializeData, deserializeData, this]
  | .obj fs, h => by
      simp only [wfData, Bool.and_eq_true, decide_eq_true_eq] at h
      have hfs := roundtrip_obj fs h.2
      simp only [serializeData, deserializeData, hfs]
      exact reviveObj_of_no_tag h.1
theorem roundtrip_arr : ∀ xs : DataArr, wfArr xs = true →
    deserializeArr (serializeArr xs) = xs
  | .nil, _ => rfl
  | .cons x xs, h => by
      simp only [wfArr, Bool.and_eq_true] at h
      simp [serializeArr, deserializeArr, roundtrip_data x h.1, roundtrip_arr xs h.2]
theorem roundtrip_obj : ∀ fs : DataObj, wfObj fs = true →
    deserializeObj (serializeObj fs) = fs
  | .nil, _ => rfl
  | .cons k v fs, h => by
      simp only [wfObj, Bool.and_eq_true] at h
      simp [serializeObj, deserializeObj, roundtrip_data v h.1, roundtrip_obj fs h.2]
end

/-- **C1** (amended): for every well-formed credential/key structure — binary
leaves are nonempty byte sequences and no plain object is pre-tagged
`type: 'Buffer'` — `deserializeData (serializeData v) = v` byte-for-byte.
The amendment restricts the byte sequences to nonempty ones: the claim as
stated fails at the empty byte sequence (see the counterexample). -/
theorem c1_codec_roundtrip (v : DataVal) (h : wfData v = true) :
    deserializeData (serializeData v) = v :=
  roundtrip_data v h

/-- **C1** counterexample to the claim as stated: the empty byte sequence is
serialized to `{ type: 'Buffer', data: '' }`, and the reviver's truthiness
test on `value.data` rejects the empty string, so decoding leaves the tag
object in place instead of reconstructing the empty buffer. -/
theorem c1_codec_empty_buffer_counterexample :
    deserializeData (serializeData (DataVal.buf [])) ≠ DataVal.buf [] := by decide

/-- **C1** witness: a concrete credential-like structure with a nonempty
binary leaf round-trips through the codec. -/
theorem c1_codec_roundtrip_witness :
    wfData (DataVal.obj (.cons "noiseKey" (.buf [0, 255, 7, 128]) .nil)) = true ∧
    deserializeData (serializeData
        (DataVal.obj (.cons "noiseKey" (.buf [0, 255, 7, 128]) .nil))) =
      DataVal.obj (.cons "noiseKey" (.buf [0, 255, 7, 128]) .nil) :=
  ⟨by decide, c1_codec_roundtrip _ (by decide)⟩

/-! ## String-keyed association lists

JS `Map` objects (the `sessions` registry) and plain objects used as maps
(`pendingKeyUpdates`, `keysCache`) have unique keys. They are modelled as
ordered association lists: `alistSet` updates the first occurrence in place
(JS property/`Map` assignment keeps the key's position), `alistDel` removes
the key (on unique-key lists this is `Map.delete` / the `delete` operator). -/

def alistGet {α : Type} (k : String) : List (String × α) → Option α
  | [] => none
  | (k', v) :: m => if k' = k then some v else alistGet k m

def alistSet {α : Type} (k : String) (v : α) : List (String × α) → List (String × α)
  | [] => [(k, v)]
  | (k', v') :: m => if k' = k then (k, v) :: m else (k', v') :: alistSet k v m

def alistDel {α : Type} (k : String) (m : List (String × α)) : List (String × α) :=
  m.filter (fun p => decide (p.1 ≠ k))

/-- JS spread `{ ...base, ...overlay }`: entries of `base`, overridden and
extended by the entries of `overlay` in order. -/
def alistMergeOver {α : Type} (base overlay : List (String × α)) : List (String × α) :=
  overlay.foldl (fun acc p => alistSet p.1 p.2 acc) base

/-- The value of the last write to key `k` in an ordered update list. -/
def lastWrite {α : Type} (k : String) : List (String × α) → Option α
  | [] => none
  | (k', v) :: l =>
      match lastWrite k l with
      | some w => some w
      | none => if k' = k then some v else none

def alistKeysNodup {α : Type} (m : List (String × α)) : Prop :=
  (m.map Prod.fst).Nodup

theorem alistGet_set_self {α : Type} (k : String) (v : α) (m : List (String × α)) :
    alistGet k (alistSet k v m) = some v := by
  induction m with
  | nil => simp [alistGet, alistSet]
  | cons p m ih =>
      obtain ⟨k', v'⟩ := p
      by_cases h : k' = k <;> simp [alistGet, alistSet, h, ih]

theorem alistGet_set_ne {α : Type} {k k' : String} (hne : k' ≠ k) (v : α)
    (m : List (String × α)) : alistGet k (alistSet k' v m) = alistGet k m := by
  induction m with
  | nil => simp [alistGet, alistSet, hne]
  | cons p m ih =>
      obtain ⟨k'', v''⟩ := p
      by_cases h : k'' = k'
      · subst h
        simp [alistGet, alistSet, hne]
      · by_cases h2 : k'' = k <;> simp [alistGet, alistSet, h, h2, ih, hne.symm]

theorem alistGet_del_self {α : Type} (k : String) (m : List (String × α)) :
    alistGet k (alistDel k m) = none := by
  induction m with
  | nil => rfl
  | cons p m ih =>
      obtain ⟨k', v'⟩ := p
      by_cases h : k' = k <;> simp [alistGet, alistDel, h] at ih ⊢ <;> simpa [alistDel] using ih

theorem alistGet_eq_none_of_not_mem {α : Type} {k : String} :
    ∀ {m : List (String × α)}, k ∉ m.map Prod.fst → alistGet k m = none
  | [], _ => rfl
  | (k', v') :: m, h => by
      simp only [List.map_cons, List.mem_cons] at h
      push_neg at h
      have hne : ¬ k' = k := fun he => h.1 he.symm
      simp [alistGet, hne, alistGet_eq_none_of_not_mem (m := m) h.2]

theorem alistGet_mergeOver {α : Type} (k : String) (base overlay : List (String × α))
    (h : alistKeysNodup overlay) :
    alistGet k (alistMergeOver base overlay) =
      match alistGet k overlay with
      | some v => some v
      | none => alistGet k base := by
  induction overlay generalizing base with
  | nil => simp [alistMergeOver, alistGet]
  | cons p rest ih =>
      obtain ⟨k', v'⟩ := p
      have hpair := List.nodup_cons.mp
        (show (k' :: rest.map Prod.fst).Nodup by simpa [alistKeysNodup] using h)
      have hnd : alistKeysNodup rest := hpair.2
      have hnotin : k' ∉ rest.map Prod.fst := hpair.1
      simp only [alistMergeOver, List.foldl_cons]
      rw [show (List.foldl (fun acc p => alistSet p.1 p.2 acc) (alistSet k' v' base) rest) =
        alistMergeOver (alistSet k' v' base) rest from rfl, ih (alistSet k' v' base) hnd]
      by_cases hk : k' = k
      · subst hk
        have hrest : alistGet k' rest = none := alistGet_eq_none_of_not_mem hnotin
        rw [hrest, alistGet_set_self]
        simp [alistGet]
      · rw [alistGet_set_ne hk]
        simp [alistGet, hk]

theorem lastWrite_map {α β : Type} (k : String) (f : α → β) :
    ∀ l : List (String × α),
      lastWrite k (l.map (fun p => (p.1, f p.2))) = (lastWrite k l).map f
  | [] => rfl
  | (k', v) :: l => by
      simp only [List.map_cons, lastWrite, lastWrite_map k f l]
      cases lastWrite k l with
      | some w => rfl
      | none => by_cases h : k' = k <;> simp [h]

theorem alistGet_foldl_set {α : Type} (k : String) :
    ∀ (l : List (String × α)) (m : List (String × α)),
      alistGet k (l.foldl (fun acc p => alistSet p.1 p.2 acc) m) =
        match lastWrite k l with
        | some v => some v
        | none => alistGet k m
  | [], m => by simp [lastWrite]
  | (k', v) :: l, m => by
      simp only [List.foldl_cons, lastWrite]
      rw [alistGet_foldl_set k l (alistSet k' v m)]
      cases hl : lastWrite k l with
      | some w => rfl
      | none =>
          by_cases h : k' = k
          · subst h
            simp [alistGet_set_self]
          · simp [h, alistGet_set_ne h]

/-! ## Session manager (`sessions.js`)

The `sessions` map (`userId -> { socket, qr, qrBase64, status, phoneNumber }`),
the durable auth store behind the backend HTTP contract, and the public
operations. Each operation is a pure state transformer that additionally
returns the list of observable effects it performs, in order: socket
terminations (`socket.end()` / `socket.logout()`), protocol-client creation
(`makeWASocket`), reconnect timers, backend webhook notifications, durable
deletes and outbound protocol sends. Socket handles are numbered by a
`nextHandle` counter so distinct live connections are distinguishable. -/

inductive SessStatus where
  | connecting
  | qr
  | connected
  | reconnecting
  | disconnected
deriving DecidableEq

/-- One entry of the `sessions` map in `sessions.js`. -/
structure SessionRec where
  socket : Option Nat
  qr : Option String
  qrBase64 : Option String
  status : SessStatus
  phoneNumber : Option String
deriving DecidableEq

/-- Durable per-session auth state held by the backend store:
the serialized credential blob and the serialized key map. -/
structure StoredAuth where
  creds : DataObj
  keys : List (String × DataVal)
deriving DecidableEq

/-- Process-wide state: the in-memory `sessions` registry, the durable store
(the backend's side of the auth HTTP contract), and the fresh-handle counter. -/
structure ServiceState where
  sessions : List (String × SessionRec)
  store : List (String × StoredAuth)
  nextHandle : Nat
deriving DecidableEq

inductive Effect where
  | endSocket (h : Nat)
  | logoutSocket (h : Nat)
  | createSocket (h : Nat) (seeded : Bool)
  | scheduleStartSession (delayMs : Nat) (id : String)
  | notifyBackend (id : String) (event : String)
  | deleteAuthCall (id : String)
  | protoSend (h : Option Nat) (jid : String) (text : String)
deriving DecidableEq

/-- Modelled from the spec: the backend credential store behind
`GET /api/v1/channel/whatsapp/auth/{id}` — the store's own implementation
(FastAPI/PostgreSQL) is not among the embedded sources; per the spec's
contract `load(id)` reports `has_credentials` exactly when durable
credentials exist for `id`, and `DELETE /auth/{id}` purges them. -/
def storeHasCredentials (store : List (String × StoredAuth)) (id : String) : Bool :=
  (alistGet id store).isSome

/-- Models `loadAuth` from `dbAuthState.js`: an existing auth is loaded iff
the store reports `has_credentials` with a nonempty creds object
(`has_credentials && creds && Object.keys(creds).length > 0`). -/
def loadAuthHasExisting (store : List (String × StoredAuth)) (id : String) : Bool :=
  match alistGet id store with
  | some a => decide (a.creds ≠ .nil)
  | none => false

/-- Models `deleteDBAuth` from `dbAuthState.js`: issues `DELETE /auth/{id}`;
on success (`ok = true`) the durable state for `id` is purged and `true` is
returned, on HTTP failure the error is caught, the store is unchanged and
`false` is returned. -/
def deleteDBAuth (store : List (String × StoredAuth)) (id : String) (ok : Bool) :
    List (String × StoredAuth) × Bool × List Effect :=
  if ok then (alistDel id store, true, [.deleteAuthCall id])
  else (store, false, [.deleteAuthCall id])

/-- The fresh session record written by `startSession` before the socket
handle is assigned; the handle assignment `sessions.get(userId).socket =
socket` immediately follows `makeWASocket`, so the record is modelled with
the new handle already in place. -/
def newSessionRec (h : Nat) : SessionRec :=
  { socket := some h
    qr := none
    qrBase64 := none
    status := .connecting
    phoneNumber := none }

inductive StartResult where
  | connectedRes (phoneNumber : Option String)
  | qrRes (qr : String)
  | connectingRes
deriving DecidableEq

/-- Models `startSession(userId)` from `sessions.js`.
If a registered session is already `connected`, or in `qr` with a cached
image, it returns idempotently; otherwise any existing socket is ended,
auth state is loaded (database-backed path, `config.useDBAuth`), and a new
protocol client is created and stored with `status = 'connecting'`.
The `seeded` flag of `createSocket` records whether the auth state passed
to `makeWASocket` came from the store (`loadAuth` succeeded) or was freshly
initialized with `initAuthCreds()`. -/
def startSession (st : ServiceState) (id : String) :
    StartResult × ServiceState × List Effect :=
  let proceed := fun (termEffs : List Effect) =>
    let seeded := loadAuthHasExisting st.store id
    let h := st.nextHandle
    let st' : ServiceState :=
      { sessions := alistSet id (newSessionRec h) st.sessions
        store := st.store
        nextHandle := st.nextHandle + 1 }
    ((.connectingRes : StartResult), st', termEffs ++ [.createSocket h seeded])
  match alistGet id st.sessions with
  | some existing =>
      if existing.status = .connected then
        (.connectedRes existing.phoneNumber, st, [])
      else
        match existing.qrBase64 with
        | some img =>
            if existing.status = .qr then
              (.qrRes img, st, [])
            else
              proceed (match existing.socket with
                | some hh => [.endSocket hh]
                | none => [])
        | none =>
            proceed (match existing.socket with
              | some hh => [.endSocket hh]
              | none => [])
  | none => proceed []

/-- Baileys `DisconnectReason.loggedOut`. -/
def DisconnectReasonLoggedOut : Nat := 401

/-- Baileys `DisconnectReason.forbidden`. -/
def DisconnectReasonForbidden : Nat := 403

/-- The close-cause classification in the `connection.update` handler:
reconnect unless the close cause is logged-out, forbidden, or 405. -/
def shouldReconnect (statusCode : Option Nat) : Bool :=
  statusCode != some DisconnectReasonLoggedOut &&
  statusCode != some DisconnectReasonForbidden &&
  statusCode != some 405

inductive ConnState where
  | close
  | openConn
deriving DecidableEq

/-- Models `QRCode.toDataURL` as an injective rendering of the pairing
challenge into an image data URL. -/
def qrToDataURL (q : String) : String := "data:image/png;base64," ++ q

/-- Models `socket.user?.id?.split(':')[0] || null`. -/
def phoneFrom : Option String → Option String
  | none => none
  | some uid =>
      let p := (uid.splitOn ":").headD ""
      if p = "" then none else some p

/-- Models the `connection.update` event handler registered by
`startSession`: the `qr` branch (render and cache the pairing image, set
`status = 'qr'`), the `close` branch (classify the cause: retryable causes
set `status = 'reconnecting'` and schedule `startSession(userId)` after a
fixed 5000 ms delay; terminal causes set `status = 'disconnected'`, clear
the handle and phone number and notify the backend), and the `open` branch
(set `status = 'connected'`, record the phone number, clear the QR image,
notify the backend). The handler reads and mutates the session entry of
`id`; it only ever runs for a registered session, so an absent entry is
modelled as a no-op. -/
def onConnectionUpdate (st : ServiceState) (id : String)
    (qrPayload : Option String) (conn : Option ConnState) (statusCode : Option Nat)
    (socketUser : Option String) : ServiceState × List Effect :=
  match alistGet id st.sessions with
  | none => (st, [])
  | some session0 =>
      let session1 : SessionRec :=
        match qrPayload with
        | some q =>
            { session0 with
              qr := some q
              qrBase64 := some (qrToDataURL q)
              status := .qr }
        | none => session0
      let closeStep : SessionRec × List Effect :=
        if conn = some .close then
          if shouldReconnect statusCode then
            ({ session1 with status := .reconnecting },
             [.scheduleStartSession 5000 id])
          else
            ({ session1 with
                status := .disconnected
                socket := none
                phoneNumber := none },
             [.notifyBackend id "disconnected"])
        else (session1, [])
      let openStep : SessionRec × List Effect :=
        if conn = some .openConn then
          ({ closeStep.1 with
              status := .connected
              phoneNumber := phoneFrom socketUser
              qr := none
              qrBase64 := none },
           [.notifyBackend id "connected"])
        else (closeStep.1, [])
      ({ st with sessions := alistSet id openStep.1 st.sessions },
       closeStep.2 ++ openStep.2)

inductive OpResult where
  | success (message : String)
deriving DecidableEq

/-- Models `sendMessage(userId, to, message)` outcomes: `{ success: true }`,
the synchronous `Error('Session not connected for user ...')`, or the
rethrown protocol-send failure. -/
inductive SendOutcome where
  | sent
  | errSessionNotConnected (message : String)
  | errSendFailed
deriving DecidableEq

/-- Models `sendMessage` from `sessions.js`: requires a registered session
with `status === 'connected'`, addresses the recipient by appending
`@s.whatsapp.net` when `to` does not already contain `'@'`, and invokes
`session.socket.sendMessage(jid, { text: message })` (whose success is the
`protoOk` input; a failure is logged and rethrown). -/
def sendMessage (st : ServiceState) (id toAddr message : String) (protoOk : Bool) :
    SendOutcome × ServiceState × List Effect :=
  let errMsg := "Session not connected for user " ++ id
  match alistGet id st.sessions with
  | none => (.errSessionNotConnected errMsg, st, [])
  | some s =>
      if s.status = .connected then
        let jid := if toAddr.toList.contains '@' then toAddr
          else toAddr ++ "@s.whatsapp.net"
        if protoOk then (.sent, st, [.protoSend s.socket jid message])
        else (.errSendFailed, st, [.protoSend s.socket jid message])
      else (.errSessionNotConnected errMsg, st, [])

/-- Models `disconnectSession` from `sessions.js`: without a registered
session or live socket it succeeds with `'Session not active'` and changes
nothing; otherwise it ends the socket and removes the registry entry,
leaving durable credentials intact. -/
def disconnectSession (st : ServiceState) (id : String) :
    OpResult × ServiceState × List Effect :=
  match alistGet id st.sessions with
  | none => (.success "Session not active", st, [])
  | some s =>
      match s.socket with
      | none => (.success "Session not active", st, [])
      | some hh =>
          (.success "Disconnected. You can reconnect without QR scan.",
           { st with sessions := alistDel id st.sessions }, [.endSocket hh])

/-- Models `logoutSession` from `sessions.js` (database-backed auth path):
`await socket.logout()` when a live socket exists, removal of the registry
entry, and `deleteDBAuth(userId)` purging durable state (`deleteOk` is the
backend DELETE call's outcome; its failure is caught inside `deleteDBAuth`). -/
def logoutSession (st : ServiceState) (id : String) (deleteOk : Bool) :
    OpResult × ServiceState × List Effect :=
  let sockEffs : List Effect :=
    match alistGet id st.sessions with
    | some s =>
        match s.socket with
        | some hh => [.logoutSocket hh]
        | none => []
    | none => []
  let del := deleteDBAuth st.store id deleteOk
  (.success "Logged out. QR scan required to reconnect.",
   { st with sessions := alistDel id st.sessions, store := del.1 },
   sockEffs ++ del.2.2)

/-- Models `resetSession` from `sessions.js` (database-backed auth path):
`socket.end()` when a live socket exists, removal of the registry entry,
`deleteDBAuth(userId)`, then `startSession(userId)` whose result is
returned. -/
def resetSession (st : ServiceState) (id : String) (deleteOk : Bool) :
    StartResult × ServiceState × List Effect :=
  let sockEffs : List Effect :=
    match alistGet id st.sessions with
    | some s =>
        match s.socket with
        | some hh => [.endSocket hh]
        | none => []
    | none => []
  let del := deleteDBAuth st.store id deleteOk
  let st1 : ServiceState := { st with sessions := alistDel id st.sessions, store := del.1 }
  let started := startSession st1 id
  (started.1, started.2.1, sockEffs ++ del.2.2 ++ started.2.2)

/-- The sequential composition `logoutSession(id)` then `startSession(id)`
that the spec equates with `resetSession(id)`. -/
def logoutThenStart (st : ServiceState) (id : String) (deleteOk : Bool) :
    StartResult × ServiceState × List Effect :=
  let lo := logoutSession st id deleteOk
  let started := startSession lo.2.1 id
  (started.1, started.2.1, lo.2.2 ++ started.2.2)

/-- Collapses the two socket-termination calls (`socket.end()` and
`socket.logout()`) to a common terminate observation. -/
def terminateView : Effect → Effect
  | .logoutSocket h => .endSocket h
  | e => e

/-- The set of live socket handles of one session advanced by one observable
effect: a termination removes the handle, a creation adds one. -/
def stepLive (cur : List Nat) : Effect → List Nat
  | .endSocket h => cur.filter (fun x => decide (x ≠ h))
  | .logoutSocket h => cur.filter (fun x => decide (x ≠ h))
  | .createSocket h _ => cur ++ [h]
  | _ => cur

/-- The live socket handles after a trace of effects, starting from `init`. -/
def liveAfter (init : List Nat) : List Effect → List Nat
  | [] => init
  | e :: es => liveAfter (stepLive init e) es

/-- Demo fixtures used by the concrete witnesses. -/
def demoConnected : SessionRec :=
  { socket := some 3
    qr := none
    qrBase64 := none
    status := .connected
    phoneNumber := some "919876543210" }

def demoQRSession : SessionRec :=
  { socket := some 4
    qr := some "qr-raw"
    qrBase64 := some "data:image/png;base64,qr-raw"
    status := .qr
    phoneNumber := none }

def demoReconnecting : SessionRec :=
  { socket := some 7
    qr := none
    qrBase64 := none
    status := .reconnecting
    phoneNumber := none }

def demoStore : List (String × StoredAuth) :=
  [("u1", { creds := .cons "me" (.str "x") .nil, keys := [] }),
   ("u3", { creds := .cons "me" (.str "y") .nil, keys := [] })]

def demoState : ServiceState :=
  { sessions := [("u1", demoConnected), ("u2", demoQRSession), ("u3", demoReconnecting)]
    store := demoStore
    nextHandle := 10 }

/-- **C2**: close-cause classification. For a registered session receiving a
connection-close update: a terminal cause (logged-out, forbidden, or 405)
sets `status = disconnected`, clears the handle and phone number, notifies
the backend, and schedules no reconnect; any other cause sets
`status = reconnecting` and schedules exactly one `startSession(id)` call
after the fixed 5000 ms delay. -/
theorem c2_close_classification (st : ServiceState) (id : String) (s : SessionRec)
    (code : Option Nat) (hs : alistGet id st.sessions = some s) :
    ((code = some DisconnectReasonLoggedOut ∨ code = some DisconnectReasonForbidden ∨
        code = some 405) →
      alistGet id (onConnectionUpdate st id none (some .close) code none).1.sessions =
        some { s with status := .disconnected, socket := none, phoneNumber := none } ∧
      (onConnectionUpdate st id none (some .close) code none).2 =
        [.notifyBackend id "disconnected"] ∧
      ∀ d i, Effect.scheduleStartSession d i ∉
        (onConnectionUpdate st id none (some .close) code none).2) ∧
    (code ≠ some DisconnectReasonLoggedOut → code ≠ some DisconnectReasonForbidden →
      code ≠ some 405 →
      alistGet id (onConnectionUpdate st id none (some .close) code none).1.sessions =
        some { s with status := .reconnecting } ∧
      (onConnectionUpdate st id none (some .close) code none).2 =
        [.scheduleStartSession 5000 id]) := by
  constructor
  · rintro (rfl | rfl | rfl) <;>
      simp [onConnectionUpdate, hs, shouldReconnect, DisconnectReasonLoggedOut,
        DisconnectReasonForbidden, alistGet_set_self]
  · intro h1 h2 h3
    have hsr : shouldReconnect code = true := by
      simp [shouldReconnect, h1, h2, h3]
    simp [onConnectionUpdate, hs, hsr, alistGet_set_self]

/-- **C2** witness: in the demo state, a logged-out close on `"u1"` is
terminal (no reconnect scheduled), and a stream-error close (code 515) on
`"u3"` schedules exactly one 5000 ms reconnect. -/
theorem c2_close_classification_witness :
    (alistGet "u1" (onConnectionUpdate demoState "u1" none (some .close)
        (some DisconnectReasonLoggedOut) none).1.sessions =
      some { demoConnected with
              status := .disconnected
              socket := none
              phoneNumber := none } ∧
     (onConnectionUpdate demoState "u1" none (some .close)
        (some DisconnectReasonLoggedOut) none).2 =
      [.notifyBackend "u1" "disconnected"]) ∧
    (onConnectionUpdate demoState "u3" none (some .close) (some 515) none).2 =
      [.scheduleStartSession 5000 "u3"] := by
  refine ⟨⟨?_, ?_⟩, ?_⟩
  · exact ((c2_close_classification demoState "u1" demoConnected
      (some DisconnectReasonLoggedOut) (by decide)).1 (Or.inl rfl)).1
  · exact ((c2_close_classification demoState "u1" demoConnected
      (some DisconnectReasonLoggedOut) (by decide)).1 (Or.inl rfl)).2.1
  · exact ((c2_close_classification demoState "u3" demoReconnecting
      (some 515) (by decide)).2 (by decide) (by decide) (by decide)).2

/-- **C3**: at most one live connection handle per id. When `startSession(id)`
is called while the registry holds a session for `id` that is neither
`connected` nor in `qr` with a cached image, the existing handle (if any) is
ended before the single new protocol client is created, so along the
emitted effect trace the session never has more than one live handle. -/
theorem c3_single_live_handle (st : ServiceState) (id : String) (s : SessionRec)
    (hs : alistGet id st.sessions = some s)
    (hconn : s.status ≠ .connected)
    (hqr : ¬ (s.status = .qr ∧ s.qrBase64 ≠ none)) :
    (startSession st id).2.2 =
      (match s.socket with
        | some hh => [Effect.endSocket hh,
            Effect.createSocket st.nextHandle (loadAuthHasExisting st.store id)]
        | none => [Effect.createSocket st.nextHandle (loadAuthHasExisting st.store id)]) ∧
    alistGet id (startSession st id).2.1.sessions = some (newSessionRec st.nextHandle) ∧
    ∀ n, (liveAfter s.socket.toList ((startSession st id).2.2.take n)).length ≤ 1 := by
  have heff : (startSession st id).2.2 =
      (match s.socket with
        | some hh => [Effect.endSocket hh,
            Effect.createSocket st.nextHandle (loadAuthHasExisting st.store id)]
        | none => [Effect.createSocket st.nextHandle (loadAuthHasExisting st.store id)]) ∧
      alistGet id (startSession st id).2.1.sessions = some (newSessionRec st.nextHandle) := by
    cases hqrb : s.qrBase64 with
    | some img =>
        have hnq : s.status ≠ .qr := fun he => hqr ⟨he, by simp [hqrb]⟩
        cases hso : s.socket <;>
          simp [startSession, hs, hconn, hnq, hqrb, hso, alistGet_set_self]
    | none =>
        cases hso : s.socket <;>
          simp [startSession, hs, hconn, hqrb, hso, alistGet_set_self]
  refine ⟨heff.1, heff.2, ?_⟩
  intro n
  rw [heff.1]
  cases hso : s.socket with
  | none =>
      match n with
      | 0 => simp [liveAfter]
      | n + 1 => simp [liveAfter, stepLive]
  | some hh =>
      match n with
      | 0 => simp [liveAfter]
      | 1 => simp [liveAfter, stepLive]
      | n + 2 => simp [liveAfter, stepLive]

/-- **C3** witness: starting the reconnecting demo session `"u3"` ends the
old handle 7 before creating the new handle 10, and the live-handle count
never exceeds one along the trace. -/
theorem c3_single_live_handle_witness :
    (startSession demoState "u3").2.2 =
      [Effect.endSocket 7, Effect.createSocket 10 true] ∧
    ∀ n, (liveAfter [7] (((startSession demoState "u3").2.2).take n)).length ≤ 1 := by
  have h := c3_single_live_handle demoState "u3" demoReconnecting (by decide)
    (by decide) (by decide)
  exact ⟨h.1, h.2.2⟩

/-- **C4**: idempotent start. For a registered session that is `connected`,
`startSession(id)` returns the connected status and phone number, leaving
the state unchanged and performing no effect; for a registered session in
`qr` with a cached image, it returns that image, likewise without any new
connection attempt. -/
theorem c4_idempotent_start (st : ServiceState) (id : String) (s : SessionRec)
    (hs : alistGet id st.sessions = some s) :
    (s.status = .connected →
      startSession st id = (.connectedRes s.phoneNumber, st, [])) ∧
    (∀ img, s.status = .qr → s.qrBase64 = some img →
      startSession st id = (.qrRes img, st, [])) := by
  constructor
  · intro hc
    simp [startSession, hs, hc]
  · intro img hq hqrb
    have hnc : ¬ s.status = .connected := by rw [hq]; decide
    simp [startSession, hs, hq, hqrb, hnc]

/-- **C4** witness: starting the already-connected demo session `"u1"`
returns its status and phone number unchanged with no effects, and starting
the demo `qr` session `"u2"` returns the cached image. -/
theorem c4_idempotent_start_witness :
    startSession demoState "u1" =
      (.connectedRes (some "919876543210"), demoState, []) ∧
    startSession demoState "u2" =
      (.qrRes "data:image/png;base64,qr-raw", demoState, []) :=
  ⟨(c4_idempotent_start demoState "u1" demoConnected (by decide)).1 rfl,
   (c4_idempotent_start demoState "u2" demoQRSession (by decide)).2
     "data:image/png;base64,qr-raw" rfl rfl⟩

/-- **C5**: logout purges durable state. When the backend DELETE call
succeeds, `logoutSession(id)` removes the session from the registry and
leaves no durable credential state: the store no longer reports credentials
for `id`, `loadAuth` finds nothing, and a subsequent `startSession(id)`
creates its protocol client unseeded (fresh pairing required). -/
theorem c5_logout_purges_state (st : ServiceState) (id : String) (ok : Bool)
    (hok : ok = true) :
    alistGet id (logoutSession st id ok).2.1.sessions = none ∧
    storeHasCredentials (logoutSession st id ok).2.1.store id = false ∧
    loadAuthHasExisting (logoutSession st id ok).2.1.store id = false ∧
    (startSession (logoutSession st id ok).2.1 id).2.2 =
      [Effect.createSocket st.nextHandle false] := by
  subst hok
  have hdel : alistGet id (alistDel id st.store) = none := alistGet_del_self id st.store
  have hsess : alistGet id (alistDel id st.sessions) = none :=
    alistGet_del_self id st.sessions
  refine ⟨?_, ?_, ?_, ?_⟩
  · simpa [logoutSession, deleteDBAuth] using hsess
  · simp [logoutSession, deleteDBAuth, storeHasCredentials, hdel]
  · simp [logoutSession, deleteDBAuth, loadAuthHasExisting, hdel]
  · simp [logoutSession, deleteDBAuth, startSession, loadAuthHasExisting, hdel, hsess]

/-- **C5** witness: logging out the connected demo session `"u1"` purges its
registry entry and durable credentials, and the next start is unseeded. -/
theorem c5_logout_purges_state_witness :
    alistGet "u1" (logoutSession demoState "u1" true).2.1.sessions = none ∧
    storeHasCredentials (logoutSession demoState "u1" true).2.1.store "u1" = false ∧
    (startSession (logoutSession demoState "u1" true).2.1 "u1").2.2 =
      [Effect.createSocket 10 false] :=
  ⟨(c5_logout_purges_state demoState "u1" true rfl).1,
   (c5_logout_purges_state demoState "u1" true rfl).2.1,
   (c5_logout_purges_state demoState "u1" true rfl).2.2.2⟩

/-- **C8** counterexample to the claim as stated: `resetSession` is not
observably identical to `logoutSession` followed by `startSession` — on the
reconnecting demo session it terminates the prior socket with `socket.end()`
where the logout path calls `socket.logout()`, so the effect traces differ. -/
theorem c8_reset_not_logout_start_counterexample :
    resetSession demoState "u3" true ≠ logoutThenStart demoState "u3" true := by
  decide

/-- **C8** (amended): `resetSession(id)` reaches exactly the state of
`logoutSession(id)` followed immediately by `startSession(id)` and returns
the same result — registry entry replaced by a fresh `connecting` session,
durable credentials purged, new client started from empty credentials — and
the two effect traces agree once `socket.end()` and `socket.logout()` are
identified as the socket-termination step; the sole divergence from the
claim is that `resetSession` ends the prior socket rather than logging it
out of the network. -/
theorem c8_reset_equals_logout_start (st : ServiceState) (id : String) (ok : Bool) :
    (resetSession st id ok).1 = (logoutThenStart st id ok).1 ∧
    (resetSession st id ok).2.1 = (logoutThenStart st id ok).2.1 ∧
    (resetSession st id ok).2.2.map terminateView =
      (logoutThenStart st id ok).2.2.map terminateView := by
  cases hs : alistGet id st.sessions with
  | none =>
      cases ok <;>
        simp [resetSession, logoutThenStart, logoutSession, deleteDBAuth, hs, terminateView]
  | some s =>
      cases hso : s.socket with
      | none =>
          cases ok <;>
            simp [resetSession, logoutThenStart, logoutSession, deleteDBAuth, hs, hso,
              terminateView]
      | some hh =>
          cases ok <;>
            simp [resetSession, logoutThenStart, logoutSession, deleteDBAuth, hs, hso,
              terminateView]

/-- **C9**: outbound send contract. `sendMessage(id, to, text)` raises the
typed synchronous error when no session is registered or the session is not
connected, leaving the state unchanged with no effects; on a connected
session it sends through the protocol client — appending the
`@s.whatsapp.net` network suffix exactly when the address does not already
contain an `'@'` suffix separator — and returns success. -/
theorem c9_send_contract (st : ServiceState) (id toAddr message : String) :
    (alistGet id st.sessions = none →
      sendMessage st id toAddr message true =
        (.errSessionNotConnected ("Session not connected for user " ++ id), st, [])) ∧
    (∀ s, alistGet id st.sessions = some s → s.status ≠ .connected →
      sendMessage st id toAddr message true =
        (.errSessionNotConnected ("Session not connected for user " ++ id), st, [])) ∧
    (∀ s, alistGet id st.sessions = some s → s.status = .connected →
      (toAddr.toList.contains '@' = true →
        sendMessage st id toAddr message true =
          (.sent, st, [.protoSend s.socket toAddr message])) ∧
      (toAddr.toList.contains '@' = false →
        sendMessage st id toAddr message true =
          (.sent, st, [.protoSend s.socket (toAddr ++ "@s.whatsapp.net") message]))) := by
  refine ⟨?_, ?_, ?_⟩
  · intro hnone
    simp [sendMessage, hnone]
  · intro s hs hnc
    simp [sendMessage, hs, hnc]
  · intro s hs hc
    constructor
    · intro hat
      have hmem : '@' ∈ toAddr.data := by simpa [String.toList] using hat
      simp [sendMessage, hs, hc, hmem]
    · intro hat
      have hmem : '@' ∉ toAddr.data := by simpa [String.toList] using hat
      simp [sendMessage, hs, hc, hmem]

/-- **C9** witness: in the demo state, sending on the unknown id `"nosess"`
and on the non-connected `"u3"` raise the typed error without effects, and
sending on the connected `"u1"` appends the suffix to a bare number but not
to an already-suffixed address. -/
theorem c9_send_contract_witness :
    sendMessage demoState "nosess" "123" "hi" true =
      (.errSessionNotConnected "Session not connected for user nosess", demoState, []) ∧
    sendMessage demoState "u3" "123" "hi" true =
      (.errSessionNotConnected "Session not connected for user u3", demoState, []) ∧
    sendMessage demoState "u1" "123" "hi" true =
      (.sent, demoState, [.protoSend (some 3) "123@s.whatsapp.net" "hi"]) ∧
    sendMessage demoState "u1" "123@g.us" "hi" true =
      (.sent, demoState, [.protoSend (some 3) "123@g.us" "hi"]) := by
  refine ⟨?_, ?_, ?_, ?_⟩
  · exact (c9_send_contract demoState "nosess" "123" "hi").1 (by decide)
  · exact (c9_send_contract demoState "u3" "123" "hi").2.1 demoReconnecting
      (by decide) (by decide)
  · exact (((c9_send_contract demoState "u1" "123" "hi").2.2 demoConnected
      (by decide) rfl).2 (by decide))
  · exact (((c9_send_contract demoState "u1" "123@g.us" "hi").2.2 demoConnected
      (by decide) rfl).1 (by decide))

/-- **C10** (implicit): `disconnectSession(id)` on an unregistered id, or on
a session without a live socket handle, returns success with message
`'Session not active'` and leaves the whole service state — registry and
durable store — unchanged, with no effects. -/
theorem c10_disconnect_inactive (st : ServiceState) (id : String)
    (h : alistGet id st.sessions = none ∨
      ∃ s, alistGet id st.sessions = some s ∧ s.socket = none) :
    disconnectSession st id = (.success "Session not active", st, []) := by
  rcases h with hnone | ⟨s, hs, hso⟩
  · simp [disconnectSession, hnone]
  · simp [disconnectSession, hs, hso]

/-- **C10** witness: disconnecting the unregistered id `"nosess"` and a
registered session whose socket is gone both return `'Session not active'`
and leave the state unchanged. -/
theorem c10_disconnect_inactive_witness :
    disconnectSession demoState "nosess" =
      (.success "Session not active", demoState, []) ∧
    (let st2 : ServiceState :=
      { demoState with sessions :=
          [("u9", { demoReconnecting with socket := none })] }
     disconnectSession st2 "u9" = (.success "Session not active", st2, [])) :=
  ⟨c10_disconnect_inactive demoState "nosess" (Or.inl (by decide)),
   c10_disconnect_inactive _ "u9"
     (Or.inr ⟨{ demoReconnecting with socket := none }, by decide, rfl⟩)⟩

/-! ## Debounced key sync (`dbAuthState.js`)

Per-session auth-sync closure state: the in-memory key cache, the pending
update map accumulated by `state.keys.set`, the 500 ms debounce timer of
`scheduleKeySync` (re-armed on every update; `timerSet` records whether a
timer is pending), and the snapshot taken by the timer callback while its
batched PATCH call is in flight. A pending value of `none` is the JS `null`
marking a delete. -/

structure SyncState where
  keysCache : List (String × DataVal)
  pending : List (String × Option DataVal)
  timerSet : Bool
  inflight : Option (List (String × Option DataVal))
deriving DecidableEq

/-- The composite key `` `${type}:${id}` `` used by `state.keys.set/get`. -/
def compositeKey (ty kid : String) : String := ty ++ ":" ++ kid

/-- One entry of `state.keys.set`: a `null`/`undefined` value deletes the
cache entry and records a pending delete; any other value is serialized and
recorded in both the cache and the pending map. -/
def applyKeyEntry (s : SyncState) (key : String) : Option DataVal → SyncState
  | none =>
      { s with
        keysCache := alistDel key s.keysCache
        pending := alistSet key none s.pending }
  | some v =>
      { s with
        keysCache := alistSet key (serializeData v) s.keysCache
        pending := alistSet key (some (serializeData v)) s.pending }

/-- Models `state.keys.set(data)` from `dbAuthState.js` followed by its
`scheduleKeySync()` call: every `(type, id, value)` entry is applied under
its composite key, then the debounce timer is cleared and re-armed. -/
def keysSet (s : SyncState)
    (data : List (String × List (String × Option DataVal))) : SyncState :=
  let s' := data.foldl
    (fun acc te =>
      te.2.foldl (fun acc2 p => applyKeyEntry acc2 (compositeKey te.1 p.1) p.2) acc)
    s
  { s' with timerSet := true }

/-- The updates of one `keys.set` payload flattened to composite keys, in
application order. -/
def flattenKeyData :
    List (String × List (String × Option DataVal)) → List (String × Option DataVal)
  | [] => []
  | te :: rest =>
      te.2.map (fun p => (compositeKey te.1 p.1, p.2)) ++ flattenKeyData rest

/-- All updates of a sequence of `keys.set` events, in arrival order. -/
def flattenKeyDataList :
    List (List (String × List (String × Option DataVal))) →
      List (String × Option DataVal)
  | [] => []
  | d :: rest => flattenKeyData d ++ flattenKeyDataList rest

/-- The serialization `keys.set` applies to one pending entry. -/
def serializeUpdate (p : String × Option DataVal) : String × Option DataVal :=
  (p.1, p.2.map serializeData)

inductive SyncEffect where
  | patchKeys (setKeys : List (String × DataVal)) (deleteKeys : List String)
deriving DecidableEq

/-- The timer callback's partition of the flushed updates into
`set_keys` (non-null values) and `delete_keys` (null markers), in
iteration order. -/
def splitUpdates : List (String × Option DataVal) →
    List (String × DataVal) × List String
  | [] => ([], [])
  | (k, some v) :: l => ((k, v) :: (splitUpdates l).1, (splitUpdates l).2)
  | (k, none) :: l => ((splitUpdates l).1, k :: (splitUpdates l).2)

/-- Models the debounce timer of `scheduleKeySync` firing: the pending map
is snapshotted and cleared; nothing happens when it is empty; otherwise the
single batched `PATCH /auth/{id}/keys` call is issued with the partitioned
payload while the snapshot stays in flight. -/
def fireTimer (s : SyncState) : SyncState × List SyncEffect :=
  if s.timerSet then
    let updates := s.pending
    if updates.isEmpty then ({ s with pending := [], timerSet := false }, [])
    else
      ({ s with
          pending := []
          timerSet := false
          inflight := some updates },
       [.patchKeys (splitUpdates updates).1 (splitUpdates updates).2])
  else (s, [])

/-- Models the resolution of the awaited PATCH call inside the timer
callback: on success the flushed snapshot is dropped; on failure it is
merged back under the current pending map
(`pendingKeyUpdates = { ...updates, ...pendingKeyUpdates }`). -/
def patchResult (s : SyncState) (ok : Bool) : SyncState :=
  match s.inflight with
  | none => s
  | some updates =>
      if ok then { s with inflight := none }
      else
        { s with
          inflight := none
          pending := alistMergeOver updates s.pending }

inductive SyncStep where
  | keyUpdate (data : List (String × List (String × Option DataVal)))
  | timerFire
  | patchReturn (ok : Bool)
deriving DecidableEq

def syncStep (s : SyncState) : SyncStep → SyncState × List SyncEffect
  | .keyUpdate data => (keysSet s data, [])
  | .timerFire => fireTimer s
  | .patchReturn ok => (patchResult s ok, [])

def runSync (s : SyncState) : List SyncStep → SyncState × List SyncEffect
  | [] => (s, [])
  | step :: rest =>
      let r1 := syncStep s step
      let r2 := runSync r1.1 rest
      (r2.1, r1.2 ++ r2.2)

theorem alistSet_ne_nil {α : Type} (k : String) (v : α) :
    ∀ m : List (String × α), alistSet k v m ≠ []
  | [] => by simp [alistSet]
  | (k', v') :: m => by by_cases h : k' = k <;> simp [alistSet, h]

theorem foldl_set_ne_nil {α : Type} :
    ∀ (l m : List (String × α)), (m ≠ [] ∨ l ≠ []) →
      l.foldl (fun acc p => alistSet p.1 p.2 acc) m ≠ []
  | [], m, h => by
      rcases h with h | h
      · simpa using h
      · simp at h
  | p :: l, m, _ => by
      simp only [List.foldl_cons]
      exact foldl_set_ne_nil l (alistSet p.1 p.2 m) (Or.inl (alistSet_ne_nil p.1 p.2 m))

theorem mem_keys_alistSet {α : Type} (x k : String) (v : α) :
    ∀ m : List (String × α), x ∈ (alistSet k v m).map Prod.fst →
      x = k ∨ x ∈ m.map Prod.fst := by
  intro m
  induction m with
  | nil =>
      intro h
      simp [alistSet] at h
      exact Or.inl h
  | cons p m ih =>
      obtain ⟨k', v'⟩ := p
      intro h
      by_cases hk : k' = k
      · subst hk
        simp only [alistSet, eq_self_iff_true, if_true, List.map_cons, List.mem_cons] at h
        rcases h with h | h
        · exact Or.inl h
        · exact Or.inr (by simp [h])
      · simp only [alistSet, if_neg hk, List.map_cons, List.mem_cons] at h
        rcases h with h | h
        · exact Or.inr (by simp [h])
        · rcases ih h with h2 | h2
          · exact Or.inl h2
          · exact Or.inr (by simp [h2])

theorem alistSet_keys_nodup {α : Type} (k : String) (v : α) :
    ∀ m : List (String × α), alistKeysNodup m → alistKeysNodup (alistSet k v m)
  | [], _ => by simp [alistKeysNodup, alistSet]
  | (k', v') :: m, h => by
      have hp := List.nodup_cons.mp
        (show (k' :: m.map Prod.fst).Nodup by simpa [alistKeysNodup] using h)
      by_cases hk : k' = k
      · subst hk
        simpa [alistKeysNodup, alistSet] using h
      · have htail : alistKeysNodup (alistSet k v m) := alistSet_keys_nodup k v m hp.2
        have hnot : k' ∉ (alistSet k v m).map Prod.fst := by
          intro hmem
          rcases mem_keys_alistSet k' k v m hmem with h2 | h2
          · exact hk h2
          · exact hp.1 h2
        have heq : alistSet k v ((k', v') :: m) = (k', v') :: alistSet k v m := by
          simp [alistSet, hk]
        show ((alistSet k v ((k', v') :: m)).map Prod.fst).Nodup
        rw [heq]
        exact List.nodup_cons.mpr ⟨by simpa using hnot, htail⟩

theorem foldl_set_keys_nodup {α : Type} :
    ∀ (l m : List (String × α)), alistKeysNodup m →
      alistKeysNodup (l.foldl (fun acc p => alistSet p.1 p.2 acc) m)
  | [], _, h => h
  | p :: l, m, h => by
      simp only [List.foldl_cons]
      exact foldl_set_keys_nodup l _ (alistSet_keys_nodup p.1 p.2 m h)

theorem mem_keys_splitUpdates_fst {k : String} :
    ∀ {l : List (String × Option DataVal)},
      k ∈ (splitUpdates l).1.map Prod.fst → k ∈ l.map Prod.fst
  | [], h => by simp [splitUpdates] at h
  | (k', some v) :: l, h => by
      simp only [splitUpdates, List.map_cons, List.mem_cons] at h ⊢
      rcases h with h | h
      · exact Or.inl h
      · exact Or.inr (mem_keys_splitUpdates_fst h)
  | (k', none) :: l, h => by
      simp only [splitUpdates, List.map_cons, List.mem_cons]
      exact Or.inr (mem_keys_splitUpdates_fst h)

theorem mem_splitUpdates_snd {k : String} :
    ∀ {l : List (String × Option DataVal)},
      k ∈ (splitUpdates l).2 → k ∈ l.map Prod.fst
  | [], h => by simp [splitUpdates] at h
  | (k', some v) :: l, h => by
      simp only [splitUpdates, List.map_cons, List.mem_cons]
      exact Or.inr (mem_splitUpdates_snd h)
  | (k', none) :: l, h => by
      simp only [splitUpdates, List.mem_cons] at h
      simp only [List.map_cons, List.mem_cons]
      rcases h with h | h
      · exact Or.inl h
      · exact Or.inr (mem_splitUpdates_snd h)

theorem alistGet_splitUpdates_fst (k : String) :
    ∀ l : List (String × Option DataVal), alistKeysNodup l →
      alistGet k (splitUpdates l).1 =
        match alistGet k l with
        | some (some v) => some v
        | _ => none
  | [], _ => rfl
  | (k', some v) :: l, h => by
      have hp := List.nodup_cons.mp
        (show (k' :: l.map Prod.fst).Nodup by simpa [alistKeysNodup] using h)
      by_cases hk : k' = k
      · subst hk
        simp [splitUpdates, alistGet]
      · simp only [splitUpdates, alistGet, if_neg hk]
        exact alistGet_splitUpdates_fst k l hp.2
  | (k', none) :: l, h => by
      have hp := List.nodup_cons.mp
        (show (k' :: l.map Prod.fst).Nodup by simpa [alistKeysNodup] using h)
      by_cases hk : k' = k
      · subst hk
        have hnone : alistGet k' (splitUpdates l).1 = none := by
          apply alistGet_eq_none_of_not_mem
          intro hmem
          exact hp.1 (mem_keys_splitUpdates_fst hmem)
        simp [splitUpdates, alistGet, hnone]
      · simp only [splitUpdates, alistGet, if_neg hk]
        exact alistGet_splitUpdates_fst k l hp.2

theorem mem_splitUpdates_snd_iff (k : String) :
    ∀ l : List (String × Option DataVal), alistKeysNodup l →
      (k ∈ (splitUpdates l).2 ↔ alistGet k l = some none)
  | [], _ => by simp [splitUpdates, alistGet]
  | (k', some v) :: l, h => by
      have hp := List.nodup_cons.mp
        (show (k' :: l.map Prod.fst).Nodup by simpa [alistKeysNodup] using h)
      by_cases hk : k' = k
      · subst hk
        constructor
        · intro hmem
          have hmem2 : k' ∈ (splitUpdates l).2 := by simpa [splitUpdates] using hmem
          exact absurd (mem_splitUpdates_snd hmem2) hp.1
        · intro hget
          simp [alistGet] at hget
      · simp only [splitUpdates, alistGet, if_neg hk]
        exact mem_splitUpdates_snd_iff k l hp.2
  | (k', none) :: l, h => by
      have hp := List.nodup_cons.mp
        (show (k' :: l.map Prod.fst).Nodup by simpa [alistKeysNodup] using h)
      by_cases hk : k' = k
      · subst hk
        simp [splitUpdates, alistGet]
      · simp only [splitUpdates, List.mem_cons, alistGet, if_neg hk]
        rw [← mem_splitUpdates_snd_iff k l hp.2]
        constructor
        · rintro (h2 | h2)
          · exact absurd h2.symm hk
          · exact h2
        · exact Or.inr

theorem applyKeyEntry_fields (s : SyncState) (key : String) (val : Option DataVal) :
    (applyKeyEntry s key val).pending =
      alistSet key (val.map serializeData) s.pending ∧
    (applyKeyEntry s key val).inflight = s.inflight ∧
    (applyKeyEntry s key val).timerSet = s.timerSet := by
  cases val <;> simp [applyKeyEntry]

theorem applyFlat_fields (s : SyncState) :
    ∀ l : List (String × Option DataVal),
      ((l.foldl (fun acc p => applyKeyEntry acc p.1 p.2) s).pending =
        (l.map serializeUpdate).foldl (fun acc p => alistSet p.1 p.2 acc) s.pending) ∧
      (l.foldl (fun acc p => applyKeyEntry acc p.1 p.2) s).inflight = s.inflight ∧
      (l.foldl (fun acc p => applyKeyEntry acc p.1 p.2) s).timerSet = s.timerSet
  | [] => by simp
  | p :: l => by
      have hstep := applyKeyEntry_fields s p.1 p.2
      have ih := applyFlat_fields (applyKeyEntry s p.1 p.2) l
      simp only [List.foldl_cons, List.map_cons]
      refine ⟨?_, ?_, ?_⟩
      · rw [ih.1, hstep.1]
        rfl
      · rw [ih.2.1, hstep.2.1]
      · rw [ih.2.2, hstep.2.2]

theorem keysSet_nested_eq_flat (s : SyncState) :
    ∀ data : List (String × List (String × Option DataVal)),
      data.foldl
        (fun acc te =>
          te.2.foldl (fun acc2 p => applyKeyEntry acc2 (compositeKey te.1 p.1) p.2) acc)
        s =
      (flattenKeyData data).foldl (fun acc p => applyKeyEntry acc p.1 p.2) s
  | [] => rfl
  | te :: rest => by
      simp only [List.foldl_cons, flattenKeyData, List.foldl_append, List.foldl_map]
      exact keysSet_nested_eq_flat _ rest

theorem keysSet_fields (s : SyncState)
    (data : List (String × List (String × Option DataVal))) :
    (keysSet s data).pending =
      ((flattenKeyData data).map serializeUpdate).foldl
        (fun acc p => alistSet p.1 p.2 acc) s.pending ∧
    (keysSet s data).inflight = s.inflight ∧
    (keysSet s data).timerSet = true := by
  have hflat := applyFlat_fields s (flattenKeyData data)
  simp only [keysSet, keysSet_nested_eq_flat s data]
  exact ⟨hflat.1, hflat.2.1, trivial⟩

theorem foldl_keysSet_fields (s : SyncState) :
    ∀ evs : List (List (String × List (String × Option DataVal))),
      ((evs.foldl keysSet s).pending =
        ((flattenKeyDataList evs).map serializeUpdate).foldl
          (fun acc p => alistSet p.1 p.2 acc) s.pending) ∧
      (evs.foldl keysSet s).inflight = s.inflight
  | [] => by simp [flattenKeyDataList]
  | d :: rest => by
      have hstep := keysSet_fields s d
      have ih := foldl_keysSet_fields (keysSet s d) rest
      simp only [List.foldl_cons, flattenKeyDataList, List.map_append, List.foldl_append]
      refine ⟨?_, ?_⟩
      · rw [ih.1, hstep.1]
      · rw [ih.2, hstep.2.1]

theorem foldl_keysSet_timer (s : SyncState) :
    ∀ evs : List (List (String × List (String × Option DataVal))), evs ≠ [] →
      (evs.foldl keysSet s).timerSet = true
  | [d], _ => by
      simp only [List.foldl_cons, List.foldl_nil]
      exact (keysSet_fields s d).2.2
  | d :: d2 :: rest, _ => by
      simp only [List.foldl_cons]
      have hrec := foldl_keysSet_timer (keysSet s d) (d2 :: rest) (by simp)
      simpa using hrec

theorem runSync_keyUpdates (s : SyncState) :
    ∀ evs : List (List (String × List (String × Option DataVal))),
      runSync s (evs.map SyncStep.keyUpdate) = (evs.foldl keysSet s, [])
  | [] => rfl
  | d :: rest => by
      simp only [List.map_cons, runSync, syncStep, List.foldl_cons,
        runSync_keyUpdates (keysSet s d) rest, List.nil_append]

theorem runSync_append (s : SyncState) :
    ∀ a b : List SyncStep,
      runSync s (a ++ b) =
        ((runSync (runSync s a).1 b).1,
         (runSync s a).2 ++ (runSync (runSync s a).1 b).2)
  | [], b => by simp [runSync]
  | step :: a, b => by
      show runSync s (step :: (a ++ b)) = _
      simp only [runSync]
      rw [runSync_append (syncStep s step).1 a b]
      simp [List.append_assoc]

/-- **C6**: debounce coalescing. Starting from an idle auth-sync state, a
sequence of `keys.set` events whose updates all fall in one debounce window
(no timer fires in between) followed by the single surviving timer callback
issues exactly one batched PATCH call; its `set_keys` payload maps each
composite key to the serialization of the last non-null value written for
it, and its `delete_keys` lists exactly the keys whose last write was null. -/
theorem c6_debounce_coalescing (cache : List (String × DataVal))
    (evs : List (List (String × List (String × Option DataVal))))
    (hne : flattenKeyDataList evs ≠ []) :
    ∃ setKeys deleteKeys,
      (runSync ⟨cache, [], false, none⟩
          (evs.map SyncStep.keyUpdate ++ [SyncStep.timerFire])).2 =
        [SyncEffect.patchKeys setKeys deleteKeys] ∧
      (∀ k, alistGet k setKeys =
        match lastWrite k (flattenKeyDataList evs) with
        | some (some v) => some (serializeData v)
        | _ => none) ∧
      (∀ k, k ∈ deleteKeys ↔ lastWrite k (flattenKeyDataList evs) = some none) := by
  set s0 : SyncState := ⟨cache, [], false, none⟩ with hs0
  have hevs : evs ≠ [] := by
    intro h
    exact hne (by simp [h, flattenKeyDataList])
  set flat := flattenKeyDataList evs with hflat
  set s1 := evs.foldl keysSet s0 with hs1
  have hpend : s1.pending =
      (flat.map serializeUpdate).foldl (fun acc p => alistSet p.1 p.2 acc) [] :=
    (foldl_keysSet_fields s0 evs).1
  have htimer : s1.timerSet = true := foldl_keysSet_timer s0 evs hevs
  have hpne : s1.pending ≠ [] := by
    rw [hpend]
    exact foldl_set_ne_nil _ [] (Or.inr (by simpa using hne))
  have hnd : alistKeysNodup s1.pending := by
    rw [hpend]
    exact foldl_set_keys_nodup _ [] (by simp [alistKeysNodup])
  have hrun : (runSync s0 (evs.map SyncStep.keyUpdate ++ [SyncStep.timerFire])).2 =
      (fireTimer s1).2 := by
    rw [runSync_append, runSync_keyUpdates s0 evs]
    simp [runSync, syncStep]
  have hfire : (fireTimer s1).2 =
      [SyncEffect.patchKeys (splitUpdates s1.pending).1 (splitUpdates s1.pending).2] := by
    simp [fireTimer, htimer, List.isEmpty_iff, hpne]
  refine ⟨(splitUpdates s1.pending).1, (splitUpdates s1.pending).2, ?_, ?_, ?_⟩
  · rw [hrun, hfire]
  · intro k
    have hgetP : alistGet k s1.pending =
        (lastWrite k flat).map (Option.map serializeData) := by
      rw [hpend, alistGet_foldl_set]
      rw [show (flat.map serializeUpdate) = flat.map (fun p => (p.1, p.2.map serializeData))
        from rfl, lastWrite_map]
      cases lastWrite k flat <;> simp [alistGet]
    rw [alistGet_splitUpdates_fst k s1.pending hnd, hgetP]
    cases hlw : lastWrite k flat with
    | none => rfl
    | some w => cases w <;> rfl
  · intro k
    have hgetP : alistGet k s1.pending =
        (lastWrite k flat).map (Option.map serializeData) := by
      rw [hpend, alistGet_foldl_set]
      rw [show (flat.map serializeUpdate) = flat.map (fun p => (p.1, p.2.map serializeData))
        from rfl, lastWrite_map]
      cases lastWrite k flat <;> simp [alistGet]
    rw [mem_splitUpdates_snd_iff k s1.pending hnd, hgetP]
    cases hlw : lastWrite k flat with
    | none => simp
    | some w => cases w <;> simp

/-- Demo key-update burst: three `keys.set` events inside one debounce
window, writing `pre-key:1` twice (the second write deleting it) and
`pre-key:2` and `session:9` once each. -/
def demoKeyEvents : List (List (String × List (String × Option DataVal))) :=
  [[("pre-key", [("1", some (.buf [1, 2, 3])), ("2", some (.buf [4, 5]))])],
   [("session", [("9", some (.str "sess"))])],
   [("pre-key", [("1", none)])]]

/-- **C6** witness: the demo burst flushes as exactly one PATCH whose
payload keeps the last write per composite key. -/
theorem c6_debounce_coalescing_witness :
    flattenKeyDataList demoKeyEvents ≠ [] ∧
    ∃ setKeys deleteKeys,
      (runSync ⟨[], [], false, none⟩
          (demoKeyEvents.map SyncStep.keyUpdate ++ [SyncStep.timerFire])).2 =
        [SyncEffect.patchKeys setKeys deleteKeys] ∧
      (∀ k, alistGet k setKeys =
        match lastWrite k (flattenKeyDataList demoKeyEvents) with
        | some (some v) => some (serializeData v)
        | _ => none) ∧
      (∀ k, k ∈ deleteKeys ↔
        lastWrite k (flattenKeyDataList demoKeyEvents) = some none) :=
  ⟨by decide, c6_debounce_coalescing [] demoKeyEvents (by decide)⟩

/-- **C7**: no key update is dropped on a failed flush. When the batched
PATCH call fails, the flushed snapshot is merged back under the current
pending map: for every composite key the next pending value is the value
that became pending during the failed flush when there is one (newer wins),
and the flushed value otherwise — in particular every flushed key is again
pending, giving at-least-once delivery per composite key. -/
theorem c7_failed_flush_merge_back (s : SyncState)
    (upd : List (String × Option DataVal))
    (hin : s.inflight = some upd) (hnd : alistKeysNodup s.pending) :
    (∀ k, alistGet k (patchResult s false).pending =
      match alistGet k s.pending with
      | some v => some v
      | none => alistGet k upd) ∧
    (∀ k, (alistGet k upd).isSome = true →
      (alistGet k (patchResult s false).pending).isSome = true) := by
  have hpend : (patchResult s false).pending = alistMergeOver upd s.pending := by
    simp [patchResult, hin]
  constructor
  · intro k
    rw [hpend, alistGet_mergeOver k upd s.pending hnd]
    cases alistGet k s.pending <;> rfl
  · intro k hk
    rw [hpend, alistGet_mergeOver k upd s.pending hnd]
    cases hp : alistGet k s.pending <;> simp [hk]

/-- Demo mid-flush state: `pre-key:1` and `pre-key:2` were flushed; while
the PATCH was in flight, a newer value for `pre-key:2` became pending. -/
def demoSyncState : SyncState :=
  { keysCache := []
    pending := [("pre-key:2", some (.str "newer"))]
    timerSet := true
    inflight := some [("pre-key:1", some (.str "flushed")), ("pre-key:2", some (.str "old"))] }

/-- **C7** witness: on the demo mid-flush state a failed PATCH merges both
flushed keys back, with the newer pending value of `pre-key:2` winning. -/
theorem c7_failed_flush_merge_back_witness :
    (∀ k, alistGet k (patchResult demoSyncState false).pending =
      match alistGet k demoSyncState.pending with
      | some v => some v
      | none =>
          alistGet k [("pre-key:1", some (DataVal.str "flushed")),
            ("pre-key:2", some (DataVal.str "old"))]) ∧
    (∀ k, (alistGet k [("pre-key:1", some (DataVal.str "flushed")),
        ("pre-key:2", some (DataVal.str "old"))]).isSome = true →
      (alistGet k (patchResult demoSyncState false).pending).isSome = true) :=
  c7_failed_flush_merge_back demoSyncState
    [("pre-key:1", some (.str "flushed")), ("pre-key:2", some (.str "old"))]
    rfl (show (demoSyncState.pending.map Prod.fst).Nodup by decide)

end ODRMitra
